import Mathlib

/-!
Verification development for the vs-code-player repository.

The embedding below follows `src/components/VSCodePlayer.tsx` (the diff
synthesizer `getTextDifference2DRanges`, the coordinate translator
`convert2DChangesToMonacoOperations`, the throttled updater
`throttledUpdateFiles`, the `duration` memo, the `filteredArray`
recomputation effect and the timeout-scheduling effect) and
`src/components/Controls.tsx` (the `throttle`/`debounce` utilities).

Texts are modelled as `List Char`; JavaScript `Date.now()` timestamps as
`Int`; the playback speed and the millisecond clock of the scheduling
effect as `ℚ` (the speeds offered by the UI, 0.25 … 2, are exact binary
rationals, so JavaScript float arithmetic on them is exact).
-/

/-- Texts are lists of characters (JavaScript strings of code units). -/
abbrev Str := List Char

/-! ## Character diff parts

`getTextDifference2DRanges` calls `Diff.diffChars` from the external
`diff` npm package (not vendored in this repository).  A diff is a list
of parts, each one an unchanged, inserted, or removed run of characters.
-/

/-- One part of a character-level diff: an unchanged, inserted (`added`),
or removed run, mirroring the `Diff.Change` objects produced by the
external library. -/
inductive DPart where
  | eq : Str → DPart
  | ins : Str → DPart
  | rem : Str → DPart
deriving DecidableEq

/-- Prepend a character to the leading unchanged run (creating one if needed). -/
def consEq (c : Char) : List DPart → List DPart
  | DPart.eq v :: ps => DPart.eq (c :: v) :: ps
  | ps => DPart.eq [c] :: ps

/-- Prepend a character to the leading inserted run (creating one if needed). -/
def consIns (c : Char) : List DPart → List DPart
  | DPart.ins v :: ps => DPart.ins (c :: v) :: ps
  | ps => DPart.ins [c] :: ps

/-- Prepend a character to the leading removed run (creating one if needed). -/
def consRem (c : Char) : List DPart → List DPart
  | DPart.rem v :: ps => DPart.rem (c :: v) :: ps
  | ps => DPart.rem [c] :: ps

/-- Number of changed characters of an edit script (its cost). -/
def editCost : List DPart → Nat
  | [] => 0
  | DPart.eq _ :: ps => editCost ps
  | DPart.ins v :: ps => v.length + editCost ps
  | DPart.rem v :: ps => v.length + editCost ps

/-- Modelled from the spec: the Diff Synthesizer "computes a
character-level diff" via the external `diff` library's `diffChars`
(Myers minimal edit script), which is not vendored under `src/`.  This
fuel-indexed implementation returns a minimal insert/delete edit script
with removed runs emitted before inserted runs, which agrees with
`diffChars` on every input whose minimal edit script is unique (all
concrete inputs used below are of that kind). -/
def editPartsF : Nat → Str → Str → List DPart
  | 0, _, _ => []
  | _ + 1, [], [] => []
  | f + 1, [], b :: bs => consIns b (editPartsF f [] bs)
  | f + 1, a :: as, [] => consRem a (editPartsF f as [])
  | f + 1, a :: as, b :: bs =>
    if a = b then consEq a (editPartsF f as bs)
    else
      let d := consRem a (editPartsF f as (b :: bs))
      let i := consIns b (editPartsF f (a :: as) bs)
      if editCost d ≤ editCost i then d else i

/-- Modelled from the spec: character-level diff of two strings (see
`editPartsF`). -/
def diffChars (a b : Str) : List DPart :=
  editPartsF (a.length + b.length + 1) a b

/-! ## The diff collapse of `getTextDifference2DRanges`

Lines 238–323 of `VSCodePlayer.tsx`: the parts of the character diff are
folded into a single `(rangeOffset, rangeLength, rangeText)` window.  The
`lineLengthsCache` memoisation of the source is the identity on
`String.length` and is modelled directly by `List.length`.
-/

/-- The mutable `state` object threaded through the loop of
`getTextDifference2DRanges`. -/
structure DiffAcc where
  rangeOffset : Nat
  rangeLength : Nat
  rangeText : Str
  changes : Nat
  deletions : Nat
  additions : Nat
deriving DecidableEq

/-- The `processUnchangedPart` helper of `getTextDifference2DRanges`,
executed for an unchanged diff part (source lines 254–281). -/
def processUnchangedPart (v : Str) (isLast : Bool) (st : DiffAcc) : DiffAcc :=
  let st := if st.changes = 0 then
    { st with rangeOffset := st.rangeOffset + v.length } else st
  let st := if st.changes ≠ 0 ∧ isLast = false then
    { st with rangeLength := st.rangeLength + v.length } else st
  let st := if st.additions ≠ 0 ∧ isLast = false then
    { st with rangeText := st.rangeText ++ v } else st
  if st.deletions ≠ 0 ∧ st.additions = 0 ∧ isLast = false then
    { st with rangeLength := st.rangeLength - v.length } else st

/-- One iteration of the loop of `getTextDifference2DRanges`
(source lines 294–312), including the trailing
`rangeOffset = changes ? rangeOffset : rangeOffset + rangeLength`
assignment. -/
def diffLoopStep (p : DPart) (isLast : Bool) (st : DiffAcc) : DiffAcc :=
  let st := match p with
    | DPart.ins v =>
      { st with rangeText := st.rangeText ++ v,
                changes := st.changes + 1, additions := st.additions + 1 }
    | DPart.rem v =>
      { st with rangeLength := st.rangeLength + v.length,
                changes := st.changes + 1, deletions := st.deletions + 1 }
    | DPart.eq v => processUnchangedPart v isLast st
  if st.changes = 0 then { st with rangeOffset := st.rangeOffset + st.rangeLength }
  else st

/-- The loop of `getTextDifference2DRanges` over all diff parts; the last
part is flagged with `isLast = i === diff.length - 1`. -/
def runDiffParts : List DPart → DiffAcc → DiffAcc
  | [], st => st
  | [p], st => diffLoopStep p true st
  | p :: ps, st => runDiffParts ps (diffLoopStep p false st)

/-- Initial value of the `state` object (source lines 283–290). -/
def diffAccInit : DiffAcc :=
  { rangeOffset := 0, rangeLength := 0, rangeText := [],
    changes := 0, deletions := 0, additions := 0 }

/-- The `Changes2DRange` descriptor returned by
`getTextDifference2DRanges` (the spec's EditDescriptor). -/
structure Changes2DRange where
  rangeOffset : Nat
  rangeLength : Nat
  rangeText : Str
  originalText : Str
  targetText : Str
deriving DecidableEq

/-- `getTextDifference2DRanges(text, originalText)` from
`VSCodePlayer.tsx` lines 238–323: `null` when the strings are equal,
otherwise the collapse of the character diff of `originalText` against
`text`. -/
def getTextDifference2DRanges (text originalText : Str) : Option Changes2DRange :=
  if originalText = text then none
  else
    let st := runDiffParts (diffChars originalText text) diffAccInit
    some { rangeOffset := st.rangeOffset, rangeLength := st.rangeLength,
           rangeText := st.rangeText, originalText := originalText,
           targetText := text }

/-- Replacing the substring `[rangeOffset, rangeOffset + rangeLength)` of
a text with `rangeText` — the application the round-trip law of the spec
talks about. -/
def applyDescriptor (d : Changes2DRange) (a : Str) : Str :=
  a.take d.rangeOffset ++ d.rangeText ++ a.drop (d.rangeOffset + d.rangeLength)

/-- Build the diff-part list of a single contiguous changed run: optional
common prefix, optional removed run, optional inserted run, optional
common suffix (empty components are omitted, as the external diff library
never emits empty parts). -/
def singleRunParts (p r i s : Str) : List DPart :=
  (if p = [] then [] else [DPart.eq p]) ++
  (if r = [] then [] else [DPart.rem r]) ++
  (if i = [] then [] else [DPart.ins i]) ++
  (if s = [] then [] else [DPart.eq s])

/-! ## Coordinate translator: `convert2DChangesToMonacoOperations`

Lines 331–380 of `VSCodePlayer.tsx`: split `originalText` on the regex
`\r\n|\n`, take the length of the first line-ending match as `eolLength`
(1 when there is no match), then walk the lines translating the linear
offsets `start = rangeOffset` and `end = rangeOffset + rangeLength` into
line/column pairs.
-/

/-- Prepend a character to the first line of a split result. -/
def consHeadLine (c : Char) : List Str → List Str
  | [] => [[c]]
  | l :: ls => (c :: l) :: ls

/-- `originalText.split(/\r\n|\n/)`: at each position a CRLF pair is
consumed first, otherwise a lone LF; a lone CR stays inside its line. -/
def splitEol : Str → List Str
  | [] => [[]]
  | '\r' :: '\n' :: rest => [] :: splitEol rest
  | '\n' :: rest => [] :: splitEol rest
  | c :: rest => consHeadLine c (splitEol rest)

/-- Length of the first `\r\n|\n` match of the text, defaulting to 1 when
there is none (`eolMatch ? eolMatch[0].length : 1`). -/
def eolLengthOf : Str → Nat
  | [] => 1
  | '\r' :: '\n' :: _ => 2
  | '\n' :: _ => 1
  | _ :: rest => eolLengthOf rest

/-- The addressable range handed to the Monaco editor. -/
structure MonacoRange where
  startLineNumber : Nat
  startColumn : Nat
  endLineNumber : Nat
  endColumn : Nat
deriving DecidableEq

/-- The value returned by `convert2DChangesToMonacoOperations`. -/
structure MonacoEditorChangeOptions where
  range : MonacoRange
  text : Str
  targetText : Str
deriving DecidableEq

/-- The mutable locals of the line walk of
`convert2DChangesToMonacoOperations` (`end` is spelled `ed`). -/
structure ConvAcc where
  start : Nat
  ed : Nat
  startLineNumber : Nat
  startColumn : Nat
  endLineNumber : Nat
  endColumn : Nat
deriving DecidableEq

/-- One iteration of the line walk (source lines 350–369); the boolean
result records the `break` of the `end` branch. -/
def convWalkStep (eolLen : Nat) (i : Nat) (line : Str) (st : ConvAcc) :
    ConvAcc × Bool :=
  let lineLength := line.length + eolLen
  let st :=
    if st.start ≥ lineLength then
      { st with start := st.start - lineLength,
                startLineNumber := st.startLineNumber + 1 }
    else if st.start ≠ 0 ∨ (st.start = 0 ∧ i = 0) then
      { st with startColumn := st.start + 1,
                startLineNumber := st.startLineNumber + 1, start := 0 }
    else st
  if st.ed ≥ lineLength then
    ({ st with ed := st.ed - lineLength, endLineNumber := st.endLineNumber + 1 },
      false)
  else if st.ed ≠ 0 ∨ (st.ed = 0 ∧ i = 0) then
    ({ st with endColumn := st.ed + 1, endLineNumber := st.endLineNumber + 1 },
      true)
  else (st, false)

/-- The full line walk with the loop index `i` and the `break`. -/
def convWalk (eolLen : Nat) : List Str → Nat → ConvAcc → ConvAcc
  | [], _, st => st
  | l :: ls, i, st =>
    let r := convWalkStep eolLen i l st
    if r.2 then r.1 else convWalk eolLen ls (i + 1) r.1

/-- `convert2DChangesToMonacoOperations` from `VSCodePlayer.tsx`
lines 331–380. -/
def convert2DChangesToMonacoOperations (c : Changes2DRange) :
    MonacoEditorChangeOptions :=
  let lines := splitEol c.originalText
  let eolLen := eolLengthOf c.originalText
  let st := convWalk eolLen lines 0
    { start := c.rangeOffset, ed := c.rangeOffset + c.rangeLength,
      startLineNumber := 0, startColumn := 0, endLineNumber := 0, endColumn := 0 }
  { range := { startLineNumber := st.startLineNumber,
               startColumn := st.startColumn,
               endLineNumber := st.endLineNumber,
               endColumn := st.endColumn },
    text := c.rangeText, targetText := c.targetText }

/-! ## Timeline model, duration, seek recomputation and scheduling

`VSCodePlayer.tsx`: the `duration` memo (lines 152–156), the
`filteredArray` recomputation effect (lines 460–475) and the
timeout-scheduling effect (lines 491–519).  The `text` field of a
timeline record is a JSON string that `throttledUpdateFiles` parses into
`{ file, text }`; the parsed payload is modelled directly.
-/

/-- The `{ file, text }` payload parsed out of a step's `text` JSON. -/
structure StepText where
  file : Str
  text : Str
deriving DecidableEq

/-- One record of the parsed `sourceCode` array (`ChangeStep` of
`types.ts`; `timeStart`/`timeEnd` in milliseconds). -/
structure ChangeStep where
  sequence : Nat
  timeStart : Nat
  timeEnd : Nat
  text : StepText
  language : Str
deriving DecidableEq

/-- The `duration` memo (lines 152–156): 0 for an empty array, otherwise
`array[array.length - 1].timeEnd / 1000` — the LAST record's `timeEnd`
converted to seconds. -/
def duration (sourceCodeArray : List ChangeStep) : ℚ :=
  match sourceCodeArray.getLast? with
  | none => 0
  | some r => (r.timeEnd : ℚ) / 1000

/-- The maximum `timeEnd` over all records — what the spec says the
duration is computed from. -/
def maxTimeEnd (l : List ChangeStep) : Nat :=
  l.foldr (fun r m => max r.timeEnd m) 0

/-- The `PlayerState` enumeration of `types.ts`. -/
inductive PlayerState where
  | UNSTARTED
  | ENDED
  | PLAYING
  | PAUSED
  | BUFFERING
  | SEEKING
deriving DecidableEq

/-- The `filteredArray` recomputation effect (lines 460–475): keep the
records with `timeStart >= time`, and `unshift` the record found with
`timeStart <= time && timeEnd > time` when one exists (`time` is the
current time in milliseconds, `currentTime * 1000`). -/
def filteredArrayAt (sourceCodeArray : List ChangeStep) (timeMs : ℚ) :
    List ChangeStep :=
  let newFilteredArray :=
    sourceCodeArray.filter (fun e => decide ((e.timeStart : ℚ) ≥ timeMs))
  match sourceCodeArray.find?
      (fun e => decide ((e.timeStart : ℚ) ≤ timeMs ∧ (e.timeEnd : ℚ) > timeMs)) with
  | some c => c :: newFilteredArray
  | none => newFilteredArray

/-- The timeout-scheduling effect (lines 491–519), as the pair
(timeout map after the effect, texts handed to `throttledUpdateFiles`
synchronously).  An empty `filteredArray` returns before the existing
timeout map is touched; otherwise the map is cleared and, for each
index/record, index 0 is applied immediately and — only while `PLAYING`
— a timeout is armed with delay `element.timeStart / currentSpeed - time`
milliseconds. -/
def scheduledTimeouts (filteredArray : List ChangeStep)
    (playerState : PlayerState) (currentSpeed : ℚ) (timeMs : ℚ)
    (timeouts : List (Nat × ℚ × StepText)) :
    List (Nat × ℚ × StepText) × List StepText :=
  if filteredArray = [] then (timeouts, [])
  else
    filteredArray.enum.foldl
      (fun acc ie =>
        let acc := if ie.1 = 0 then (acc.1, acc.2 ++ [ie.2.text]) else acc
        if playerState = PlayerState.PLAYING then
          (acc.1 ++ [(ie.1, (ie.2.timeStart : ℚ) / currentSpeed - timeMs,
            ie.2.text)], acc.2)
        else acc)
      (([] : List (Nat × ℚ × StepText)), ([] : List StepText))

/-! ## The throttled updater and the debounce machinery

`throttledUpdateFiles` (`VSCodePlayer.tsx` lines 382–451) wraps the
update body in `throttle(…, 50, { leading: true, trailing: true })` from
`Controls.tsx`, which instantiates `debounce` with `wait = maxWait = 50`,
`leading = trailing = maxing = true`.  The debounce closure state is
modelled explicitly; its `setTimeout` timer is modelled by the absolute
time at which the pending timer fires.  `JSON.parse(sourceText)` is
modelled by passing the parsed `{ file, text }` payload directly.
React state setters that only drive rendering (`setCurrentFile`,
`setToggleTabChange`) are not modelled; `editorState`/`monacoState` are
assumed mounted (their `null` early returns are dead in a mounted
player).  The `ed.applied` field is a ghost observation log recording
`(time, path, value)` of every visible buffer mutation.
-/

/-- The arguments of one `throttledUpdateFiles(sourceText, init)` call,
with `sourceText` already parsed. -/
structure UpdateArgs where
  payload : StepText
  init : Bool
deriving DecidableEq

/-- One entry of the `files.current` record (its Monaco model is
represented by the value the model holds). -/
structure FileEntry where
  name : Str
  language : Str
  value : Str
  isChanged : Bool
deriving DecidableEq

/-- `getLanguage` (lines 164–178): language from the file extension. -/
def getLanguage (file : Str) : Str :=
  match (file.splitOn '.').getLast? with
  | some ext =>
    if ext = "js".toList then "javascript".toList
    else if ext = "ts".toList then "typescript".toList
    else if ext = "html".toList then "html".toList
    else if ext = "css".toList then "css".toList
    else "auto".toList
  | none => "auto".toList

/-- The stream id `codePlayer/${file}` (line 392). -/
def codePlayerPath (file : Str) : Str :=
  "codePlayer/".toList ++ file

/-- Modelled from the spec: the external buffer collaborator's edit
application (`model.pushEditOperations`): the 1-indexed line/column
position is converted to a linear offset ("columns counted in code units
from line start"), clamping below at the text start. -/
def lineColToOffset (t : Str) (line col : Nat) : Nat :=
  if line ≤ 1 then col - 1
  else match t with
    | [] => col - 1
    | '\r' :: '\n' :: rest => 2 + lineColToOffset rest (line - 1) col
    | '\n' :: rest => 1 + lineColToOffset rest (line - 1) col
    | _ :: rest => 1 + lineColToOffset rest line col

/-- Modelled from the spec: applying a single range-replacement edit
operation to the buffer text. -/
def applyMonacoOp (v : Str) (op : MonacoEditorChangeOptions) : Str :=
  let s := lineColToOffset v op.range.startLineNumber op.range.startColumn
  let e := lineColToOffset v op.range.endLineNumber op.range.endColumn
  v.take s ++ op.text ++ v.drop e

/-- The scheduler-owned editor/file state: the `lastUpdateTime` ref, the
`files.current` record (association list, most recent entry first), the
`currentFilePathRef`, the value of the active Monaco model, and the
ghost log of applied mutations. -/
structure EditorSt where
  lastUpdateTime : Int
  files : List (Str × FileEntry)
  currentFilePath : Str
  currentValue : Str
  applied : List (Int × Str × Str)
deriving DecidableEq

/-- `handleEditorChange` (lines 181–219): on a file switch the editor is
first reset to the target file's stored value; the edit operation is
pushed; finally, if the resulting value differs from `targetText`, the
model is forcibly set to `targetText` (`model.setValue`). -/
def handleEditorChange (op : MonacoEditorChangeOptions) (fileChanged : Bool)
    (s : EditorSt) : EditorSt :=
  match s.files.lookup s.currentFilePath with
  | none => s
  | some file =>
    let v0 := if fileChanged then file.value else s.currentValue
    let v1 := applyMonacoOp v0 op
    let v2 := if v1 = op.targetText then v1 else op.targetText
    { s with currentValue := v2 }

/-- The body of `throttledUpdateFiles` (lines 385–439): the inner 50 ms
rate guard (bypassed when `init`), the `init` branch creating a model
for a not-yet-seen stream, and the update branch computing the diff
against the editor's current value and applying it. -/
def updateFiles (now : Int) (a : UpdateArgs) (s : EditorSt) : EditorSt :=
  if now - s.lastUpdateTime < 50 ∧ a.init = false then s
  else
    let s := { s with lastUpdateTime := now }
    let file := a.payload.file
    let text := a.payload.text
    let language := getLanguage file
    let path := codePlayerPath file
    if a.init then
      if (s.files.lookup path).isSome then s
      else
        let s := { s with files := (path,
          { name := file, language := language, value := text,
            isChanged := false }) :: s.files }
        if s.currentFilePath = [] then { s with currentFilePath := path } else s
    else
      let pervFileText := s.currentValue
      let fileChanged := decide (s.currentFilePath ≠ path)
      let s :=
        { s with
            currentFilePath := path,
            files := (path,
              { name := file, language := language, value := text,
                isChanged := true }) :: s.files }
      match getTextDifference2DRanges text pervFileText with
      | none => s
      | some d =>
        let op := convert2DChangesToMonacoOperations d
        let s2 := handleEditorChange op fileChanged s
        { s2 with applied := s.applied ++ [(now, path, s2.currentValue)] }

/-- The closure state of `debounce` (`Controls.tsx` lines 329–338),
instantiated by `throttle` with `wait = maxWait = 50` and
`leading = trailing = maxing = true`; `timerFire` is the absolute time
at which the live `setTimeout` timer fires (`none`: no live timer). -/
structure DebSt where
  lastArgs : Option UpdateArgs
  timerFire : Option Int
  lastCallTime : Option Int
  lastInvokeTime : Int
deriving DecidableEq

/-- Initial debounce closure state. -/
def debInit : DebSt :=
  { lastArgs := none, timerFire := none, lastCallTime := none,
    lastInvokeTime := 0 }

/-- The debounce closure together with the editor state it mutates. -/
structure MachineSt where
  deb : DebSt
  ed : EditorSt
deriving DecidableEq

/-- `shouldInvoke` (lines 382–392): first call ever, ≥ 50 ms since the
last call, system time gone backwards, or (maxing) ≥ 50 ms since the
last invocation. -/
def shouldInvoke (t : Int) (d : DebSt) : Bool :=
  match d.lastCallTime with
  | none => true
  | some lc =>
    decide (t - lc ≥ 50) || decide (t - lc < 0) ||
      decide (t - d.lastInvokeTime ≥ 50)

/-- `invokeFunc` (lines 349–356): consume `lastArgs`, stamp
`lastInvokeTime`, run the wrapped function. -/
def invokeFunc (t : Int) (m : MachineSt) : MachineSt :=
  match m.deb.lastArgs with
  | none => { m with deb := { m.deb with lastArgs := none, lastInvokeTime := t } }
  | some a =>
    { deb := { m.deb with lastArgs := none, lastInvokeTime := t },
      ed := updateFiles t a m.ed }

/-- `leadingEdge` (lines 366–370) with `leading = true`: start the timer
and invoke immediately. -/
def leadingEdge (t : Int) (m : MachineSt) : MachineSt :=
  invokeFunc t
    { m with deb := { m.deb with lastInvokeTime := t, timerFire := some (t + 50) } }

/-- `remainingWait` (lines 372–380) with `maxing = true`. -/
def remainingWait (t : Int) (d : DebSt) : Int :=
  min (50 - (t - d.lastCallTime.getD 0)) (50 - (t - d.lastInvokeTime))

/-- `trailingEdge` (lines 402–410) with `trailing = true`: drop the
timer; invoke with the pending arguments when there are any. -/
def trailingEdge (t : Int) (m : MachineSt) : MachineSt :=
  let m := { m with deb := { m.deb with timerFire := none } }
  if m.deb.lastArgs.isSome then invokeFunc t m
  else { m with deb := { m.deb with lastArgs := none } }

/-- `timerExpired` (lines 394–400), run when the wall clock reaches the
pending timer's fire time. -/
def timerExpired (t : Int) (m : MachineSt) : MachineSt :=
  if shouldInvoke t m.deb then trailingEdge t m
  else { m with deb := { m.deb with timerFire := some (t + remainingWait t m.deb) } }

/-- `debounced(...args)` (lines 424–445), i.e. one call of
`throttledUpdateFiles` at wall-clock time `t`. -/
def throttledCall (t : Int) (a : UpdateArgs) (m : MachineSt) : MachineSt :=
  let isInvoking := shouldInvoke t m.deb
  let m := { m with deb := { m.deb with lastArgs := some a, lastCallTime := some t } }
  if isInvoking then
    match m.deb.timerFire with
    | none => leadingEdge t m
    | some _ =>
      invokeFunc t { m with deb := { m.deb with timerFire := some (t + 50) } }
  else
    match m.deb.timerFire with
    | none => { m with deb := { m.deb with timerFire := some (t + 50) } }
    | some _ => m

/-- A freshly mounted editor: empty model, no files, epoch refs. -/
def edInit : EditorSt :=
  { lastUpdateTime := 0, files := [], currentFilePath := [],
    currentValue := [], applied := [] }

/-- Freshly constructed throttled updater over a fresh editor. -/
def machineInit : MachineSt :=
  { deb := debInit, ed := edInit }

/-- The priming effect (lines 453–458): one synchronous
`throttledUpdateFiles(element.text, true)` call per timeline record. -/
def primingEffect (t : Int) (arr : List ChangeStep) (m : MachineSt) : MachineSt :=
  arr.foldl (fun m e => throttledCall t { payload := e.text, init := true } m) m

/-- The cancellation effect (lines 481–489): when the player is not
`PLAYING` or the speed changed, every pending timeout is cleared and the
map emptied; otherwise the map is left alone. -/
def cancelPendingTimeouts (playerState : PlayerState) (prevSpeed currentSpeed : ℚ)
    (m : List (Nat × ℚ × StepText)) : List (Nat × ℚ × StepText) :=
  if playerState ≠ PlayerState.PLAYING ∨ prevSpeed ≠ currentSpeed then [] else m

/-- The body of a scheduled timeout callback (lines 505–510):
`() => throttledUpdateFiles(element.text)` — a plain non-init call with
no generation check of any kind. -/
def timeoutCallbackBody (t : Int) (payload : StepText) (m : MachineSt) : MachineSt :=
  throttledCall t { payload := payload, init := false } m

/-- A burst against one stream: updates requested at t = 1000 ("A"),
t = 1030 ("B") and t = 1085 ("C"), with the wrapper's timer firing when
due (t = 1050 and t = 1135). -/
def c3Run : MachineSt :=
  timerExpired 1135 (throttledCall 1085
    { payload := { file := "f".toList, text := "C".toList }, init := false }
    (timerExpired 1050 (throttledCall 1030
      { payload := { file := "f".toList, text := "B".toList }, init := false }
      (throttledCall 1000
        { payload := { file := "f".toList, text := "A".toList }, init := false }
        machineInit))))

/-- The priming effect run on a three-record timeline with three
distinct streams, at t = 1000, followed by the wrapper's trailing timer
at t = 1050. -/
def c6Prime : MachineSt :=
  primingEffect 1000
    [{ sequence := 1, timeStart := 0, timeEnd := 100,
       text := { file := "a.js".toList, text := "A".toList }, language := [] },
     { sequence := 2, timeStart := 100, timeEnd := 200,
       text := { file := "b.js".toList, text := "B".toList }, language := [] },
     { sequence := 3, timeStart := 200, timeEnd := 300,
       text := { file := "c.js".toList, text := "C".toList }, language := [] }]
    machineInit

/-- The machine state after priming stream "f" with "A" at t = 1000:
this is the state a stale callback would find after a pause cancelled
the schedule. -/
def c9Base : MachineSt :=
  throttledCall 1000
    { payload := { file := "f".toList, text := "A".toList }, init := true }
    machineInit

/-- Scenario A, step 1: `{timeStart 0, timeEnd 500, text "a"}`. -/
def scenA1 : ChangeStep :=
  { sequence := 1, timeStart := 0, timeEnd := 500,
    text := { file := "m.ts".toList, text := "a".toList }, language := [] }

/-- Scenario A, step 2: `{timeStart 500, timeEnd 1000, text "ab"}`. -/
def scenA2 : ChangeStep :=
  { sequence := 2, timeStart := 500, timeEnd := 1000,
    text := { file := "m.ts".toList, text := "ab".toList }, language := [] }

/-- An idle machine whose buffer for stream "m.ts" currently shows "a". -/
def scenAMachine : MachineSt :=
  { deb := debInit,
    ed := { lastUpdateTime := 0,
            files := [(codePlayerPath "m.ts".toList,
              { name := "m.ts".toList, language := "typescript".toList,
                value := "a".toList, isChanged := true })],
            currentFilePath := codePlayerPath "m.ts".toList,
            currentValue := "a".toList, applied := [] } }

/-- Splicing a descriptor whose window is exactly the removed run of a
single contiguous edit restores the target text. -/
theorem applyDescriptor_singleRun (p r i s ot tt : Str) :
    applyDescriptor
      { rangeOffset := p.length, rangeLength := r.length, rangeText := i,
        originalText := ot, targetText := tt } (p ++ r ++ s) = p ++ i ++ s := by
  unfold applyDescriptor
  have h1 : (p ++ r ++ s).take p.length = p := by
    rw [List.append_assoc]
    exact List.take_left p (r ++ s)
  have h2 : (p ++ r ++ s).drop (p.length + r.length) = s := by
    rw [show p.length + r.length = (p ++ r).length by simp]
    exact List.drop_left (p ++ r) s
  simp only [h1, h2]

/-- Collapsing a single-contiguous-run diff yields the window
`(|prefix|, |removed|, inserted)`. -/
theorem runDiffParts_singleRun (p r i s : Str) (h : r ++ i ≠ []) :
    (runDiffParts (singleRunParts p r i s) diffAccInit).rangeOffset = p.length ∧
    (runDiffParts (singleRunParts p r i s) diffAccInit).rangeLength = r.length ∧
    (runDiffParts (singleRunParts p r i s) diffAccInit).rangeText = i := by
  by_cases hp : p = [] <;> by_cases hr : r = [] <;>
    by_cases hi : i = [] <;> by_cases hs : s = [] <;>
    simp_all [singleRunParts, runDiffParts, diffLoopStep, processUnchangedPart,
      diffAccInit]

/-- C1 (amended). Round-trip law of the diff synthesizer, restricted to
single contiguous edits: whenever the character diff of `A` against `B`
is a single contiguous changed run — an optional unchanged prefix `p`,
a removed run `r`, an inserted run `i`, an optional unchanged suffix `s`
— the descriptor produced by `getTextDifference2DRanges(B, A)` applied
to `A` (replacing `[rangeOffset, rangeOffset + rangeLength)` with
`rangeText`) yields exactly `B`.  The unrestricted claim is refuted by
`C1_roundTrip_cex`: with two disjoint changed runs the collapse loop
first adds and then subtracts the length of the unchanged text between
them, so the window is too short. -/
theorem C1_roundTrip_singleRun (p r i s A B : Str) (hAB : A ≠ B)
    (hA : A = p ++ r ++ s) (hB : B = p ++ i ++ s)
    (hd : diffChars A B = singleRunParts p r i s) :
    (getTextDifference2DRanges B A).map (fun d => applyDescriptor d A) = some B := by
  have hri : r ++ i ≠ [] := by
    intro h
    rcases List.append_eq_nil.mp h with ⟨h1, h2⟩
    exact hAB (by rw [hA, hB, h1, h2])
  obtain ⟨h1, h2, h3⟩ := runDiffParts_singleRun p r i s hri
  unfold getTextDifference2DRanges
  rw [if_neg hAB, hd]
  have : applyDescriptor
      { rangeOffset := (runDiffParts (singleRunParts p r i s) diffAccInit).rangeOffset,
        rangeLength := (runDiffParts (singleRunParts p r i s) diffAccInit).rangeLength,
        rangeText := (runDiffParts (singleRunParts p r i s) diffAccInit).rangeText,
        originalText := A, targetText := B } A = B := by
    rw [h1, h2, h3, hA, hB]
    exact applyDescriptor_singleRun p r i s _ _
  simp only [Option.map_some', this]

/-- C1 witness: the single-substitution pair A = "xyw", B = "xzw"
satisfies the hypotheses of `C1_roundTrip_singleRun` and round-trips. -/
theorem C1_roundTrip_singleRun_w :
    (getTextDifference2DRanges "xzw".toList "xyw".toList).map
      (fun d => applyDescriptor d "xyw".toList) = some "xzw".toList :=
  C1_roundTrip_singleRun "x".toList "y".toList "z".toList "w".toList
    "xyw".toList "xzw".toList (by decide) (by decide) (by decide) (by decide)

/-- C1 counterexample: for A = "aXbYc" and B = "abc" (two disjoint
deletions) the synthesizer produces the descriptor
`{rangeOffset 1, rangeLength 2, rangeText ""}`, and replacing
`[1, 3)` of A with `""` yields "aYc", not B — the round-trip law fails. -/
theorem C1_roundTrip_cex :
    getTextDifference2DRanges "abc".toList "aXbYc".toList =
      some { rangeOffset := 1, rangeLength := 2, rangeText := [],
             originalText := "aXbYc".toList, targetText := "abc".toList } ∧
    applyDescriptor
      { rangeOffset := 1, rangeLength := 2, rangeText := [],
        originalText := "aXbYc".toList, targetText := "abc".toList }
      "aXbYc".toList = "aYc".toList ∧
    "aYc".toList ≠ "abc".toList := by
  refine ⟨by decide, by decide, by decide⟩

/-- C7. The diff synthesizer returns `none` exactly when the two strings
are identical; for every unequal pair it returns a descriptor. -/
theorem C7_diff_none_iff_eq (text originalText : Str) :
    (getTextDifference2DRanges text originalText = none ↔ originalText = text) ∧
    (originalText ≠ text →
      ∃ d, getTextDifference2DRanges text originalText = some d) := by
  unfold getTextDifference2DRanges
  by_cases h : originalText = text <;> simp [h]

/-- The detected line-ending length is always at least 1. -/
theorem eolLengthOf_pos (t : Str) : 1 ≤ eolLengthOf t := by
  induction t using eolLengthOf.induct <;> simp_all [eolLengthOf]

/-- A character that is neither CR nor LF joins the first line of the split. -/
theorem splitEol_cons_ne (c : Char) (rest : Str) (hc1 : c ≠ '\r')
    (hc2 : c ≠ '\n') : splitEol (c :: rest) = consHeadLine c (splitEol rest) := by
  simp [splitEol, hc1, hc2]

/-- A character that is neither CR nor LF does not affect the first
line-ending match. -/
theorem eolLengthOf_cons_ne (c : Char) (rest : Str) (hc1 : c ≠ '\r')
    (hc2 : c ≠ '\n') : eolLengthOf (c :: rest) = eolLengthOf rest := by
  simp [eolLengthOf, hc1, hc2]

/-- Splitting a text whose first line `a` is free of line endings peels
off exactly `a`. -/
theorem splitEol_append (a b : Str) (h1 : '\n' ∉ a) (h2 : '\r' ∉ a) :
    splitEol (a ++ '\n' :: b) = a :: splitEol b := by
  induction a with
  | nil => simp [splitEol]
  | cons c a ih =>
    have hc1 : c ≠ '\r' := fun h => h2 (h ▸ List.mem_cons_self c a)
    have hc2 : c ≠ '\n' := fun h => h1 (h ▸ List.mem_cons_self c a)
    rw [List.cons_append, splitEol_cons_ne c _ hc1 hc2,
      ih (fun h => h1 (List.mem_cons_of_mem c h))
        (fun h => h2 (List.mem_cons_of_mem c h))]
    rfl

/-- The first line-ending match of a text whose first line is free of
line endings is the LF terminating that line. -/
theorem eolLengthOf_append (a b : Str) (h1 : '\n' ∉ a) (h2 : '\r' ∉ a) :
    eolLengthOf (a ++ '\n' :: b) = 1 := by
  induction a with
  | nil => simp [eolLengthOf]
  | cons c a ih =>
    have hc1 : c ≠ '\r' := fun h => h2 (h ▸ List.mem_cons_self c a)
    have hc2 : c ≠ '\n' := fun h => h1 (h ▸ List.mem_cons_self c a)
    rw [List.cons_append, eolLengthOf_cons_ne c _ hc1 hc2]
    exact ih (fun h => h1 (List.mem_cons_of_mem c h))
      (fun h => h2 (List.mem_cons_of_mem c h))

/-- Once both running offsets have been consumed to exactly 0 past the
first line, no further iteration of the walk changes the state: neither
branch of either conditional can fire again. -/
theorem convWalk_idle (eolLen : Nat) (hpos : 1 ≤ eolLen) (ls : List Str)
    (i : Nat) (hi : i ≠ 0) (st : ConvAcc) (hs : st.start = 0)
    (he : st.ed = 0) : convWalk eolLen ls i st = st := by
  induction ls generalizing i with
  | nil => rfl
  | cons l ls ih =>
    have hlen : ¬ (0 ≥ l.length + eolLen) := by omega
    show (if (convWalkStep eolLen i l st).2 then (convWalkStep eolLen i l st).1
      else convWalk eolLen ls (i + 1) (convWalkStep eolLen i l st).1) = st
    have hstep : convWalkStep eolLen i l st = (st, false) := by
      unfold convWalkStep
      simp [hs, he, hi, hlen]
    rw [hstep]
    exact ih (i + 1) (by omega)

/-- `consHeadLine` never produces an empty list. -/
theorem consHeadLine_ne_nil (c : Char) (ls : List Str) :
    consHeadLine c ls ≠ [] := by
  cases ls <;> simp [consHeadLine]

/-- The split of any text has at least one line. -/
theorem splitEol_ne_nil (t : Str) : splitEol t ≠ [] := by
  induction t using splitEol.induct <;> simp_all [splitEol, consHeadLine_ne_nil]

/-- Unfolding equation of the line walk on a non-empty line list. -/
theorem convWalk_cons (eolLen : Nat) (l : Str) (ls : List Str) (i : Nat)
    (st : ConvAcc) :
    convWalk eolLen (l :: ls) i st =
      if (convWalkStep eolLen i l st).2 then (convWalkStep eolLen i l st).1
      else convWalk eolLen ls (i + 1) (convWalkStep eolLen i l st).1 := rfl

/-- C5 (amended). The coordinate translator is 1-indexed at interior
offsets — offset 0 maps to line 1, column 1 for every original text —
but an offset that lands exactly at a line boundary past the first line
is NOT mapped to column 1 of the following line: both walk branches go
silent once the running offset is consumed to exactly 0, so the
translator reports column 0 with the line counter still at the previous
line (startLineNumber 1, startColumn 0 for a two-line text), violating
1-indexing there.  The original claim is refuted at a concrete boundary
offset by `C5_boundary_cex`. -/
theorem C5_boundary_policy :
    (∀ t rt tt : Str,
      (convert2DChangesToMonacoOperations
        { rangeOffset := 0, rangeLength := 0, rangeText := rt,
          originalText := t, targetText := tt }).range =
        { startLineNumber := 1, startColumn := 1,
          endLineNumber := 1, endColumn := 1 }) ∧
    (∀ a b rt tt : Str, '\n' ∉ a → '\r' ∉ a →
      (convert2DChangesToMonacoOperations
        { rangeOffset := a.length + 1, rangeLength := 0, rangeText := rt,
          originalText := a ++ '\n' :: b, targetText := tt }).range =
        { startLineNumber := 1, startColumn := 0,
          endLineNumber := 1, endColumn := 0 }) := by
  constructor
  · intro t rt tt
    obtain ⟨l, ls, hl⟩ := List.exists_cons_of_ne_nil (splitEol_ne_nil t)
    have hpos := eolLengthOf_pos t
    have hnot : ¬ (0 ≥ l.length + eolLengthOf t) := by omega
    have hstep : convWalkStep (eolLengthOf t) 0 l
        { start := 0, ed := 0, startLineNumber := 0, startColumn := 0,
          endLineNumber := 0, endColumn := 0 } =
        ({ start := 0, ed := 0, startLineNumber := 1, startColumn := 1,
           endLineNumber := 1, endColumn := 1 }, true) := by
      unfold convWalkStep
      simp [hnot]
    simp [convert2DChangesToMonacoOperations, hl, convWalk_cons, hstep]
  · intro a b rt tt h1 h2
    have hstep : convWalkStep 1 0 a
        { start := a.length + 1, ed := a.length + 1, startLineNumber := 0,
          startColumn := 0, endLineNumber := 0, endColumn := 0 } =
        ({ start := 0, ed := 0, startLineNumber := 1, startColumn := 0,
           endLineNumber := 1, endColumn := 0 }, false) := by
      unfold convWalkStep
      simp
    have hidle := convWalk_idle 1 (by omega) (splitEol b) 1 (by omega)
      { start := 0, ed := 0, startLineNumber := 1, startColumn := 0,
        endLineNumber := 1, endColumn := 0 } rfl rfl
    simp [convert2DChangesToMonacoOperations, splitEol_append a b h1 h2,
      eolLengthOf_append a b h1 h2, convWalk_cons, hstep, hidle]

/-- C5 witness: both conjuncts of `C5_boundary_policy` instantiated at
concrete texts: offset 0 of "cd" is line 1 column 1, while the boundary
offset 2 of the two-line text "x" LF "y" is reported as line 1 column 0. -/
theorem C5_boundary_policy_w :
    (convert2DChangesToMonacoOperations
      { rangeOffset := 0, rangeLength := 0, rangeText := [],
        originalText := "cd".toList, targetText := [] }).range =
      { startLineNumber := 1, startColumn := 1,
        endLineNumber := 1, endColumn := 1 } ∧
    (convert2DChangesToMonacoOperations
      { rangeOffset := "x".toList.length + 1, rangeLength := 0, rangeText := [],
        originalText := "x".toList ++ '\n' :: "y".toList, targetText := [] }).range =
      { startLineNumber := 1, startColumn := 0,
        endLineNumber := 1, endColumn := 0 } :=
  ⟨C5_boundary_policy.1 "cd".toList [] [],
   C5_boundary_policy.2 "x".toList "y".toList [] [] (by decide) (by decide)⟩

/-- C5 counterexample: in the text "ab" LF "cd", the offset 3 lands
exactly at the boundary starting line 2; the translator returns
startLineNumber 1, startColumn 0 — column 0 is not a 1-indexed column,
and the result is not column 1 of the following line (2, 1). -/
theorem C5_boundary_cex :
    (convert2DChangesToMonacoOperations
      { rangeOffset := 3, rangeLength := 0, rangeText := [],
        originalText := "ab\ncd".toList, targetText := [] }).range =
      { startLineNumber := 1, startColumn := 0,
        endLineNumber := 1, endColumn := 0 } ∧
    ({ startLineNumber := 1, startColumn := 0, endLineNumber := 1,
       endColumn := 0 } : MonacoRange) ≠
      { startLineNumber := 2, startColumn := 1, endLineNumber := 2,
        endColumn := 1 } := by
  refine ⟨by decide, by decide⟩

/-- C10. Empty-timeline edge case: with zero parsed records the duration
is exactly 0, the recomputed replay queue is empty, and the scheduling
effect returns before touching the timeout map — whatever map `m` was
pending is left untouched and nothing is applied or armed. -/
theorem C10_empty_timeline (m : List (Nat × ℚ × StepText)) (ps : PlayerState)
    (speed timeMs : ℚ) :
    duration [] = 0 ∧
    filteredArrayAt [] timeMs = [] ∧
    scheduledTimeouts [] ps speed timeMs m = (m, []) :=
  ⟨rfl, rfl, rfl⟩

/-- C4 (amended). The player reports `array[array.length - 1].timeEnd /
1000` — the LAST record's `timeEnd` in seconds.  This equals the maximum
`timeEnd` over all records exactly when the records' `timeEnd` values
are nondecreasing in array order (true of single-stream recordings,
refuted otherwise by `C4_duration_cex`). -/
theorem C4_duration_last (l : List ChangeStep) (hne : l ≠ [])
    (hsorted : l.Pairwise (fun a b => a.timeEnd ≤ b.timeEnd)) :
    duration l = (maxTimeEnd l : ℚ) / 1000 := by
  induction l with
  | nil => exact absurd rfl hne
  | cons x xs ih =>
    cases xs with
    | nil =>
      simp [duration, maxTimeEnd]
    | cons y ys =>
      have hx : x.timeEnd ≤ y.timeEnd := (List.pairwise_cons.mp hsorted).1 y
        (List.mem_cons_self y ys)
      have htail := (List.pairwise_cons.mp hsorted).2
      have hco : duration (x :: y :: ys) = duration (y :: ys) := by
        unfold duration
        rw [List.getLast?_cons_cons]
      have hmax : maxTimeEnd (x :: y :: ys) = maxTimeEnd (y :: ys) := by
        show max x.timeEnd (maxTimeEnd (y :: ys)) = maxTimeEnd (y :: ys)
        have : y.timeEnd ≤ maxTimeEnd (y :: ys) := Nat.le_max_left _ _
        omega
      rw [hco, hmax, ih (by simp) htail]

/-- C4 witness: on a sorted two-record timeline ending at 800 ms the
reported duration is the maximal `timeEnd` in seconds. -/
theorem C4_duration_last_w :
    duration
      [{ sequence := 1, timeStart := 0, timeEnd := 500,
         text := { file := [], text := [] }, language := [] },
       { sequence := 2, timeStart := 500, timeEnd := 800,
         text := { file := [], text := [] }, language := [] }] =
      (maxTimeEnd
        [{ sequence := 1, timeStart := 0, timeEnd := 500,
           text := { file := [], text := [] }, language := [] },
         { sequence := 2, timeStart := 500, timeEnd := 800,
           text := { file := [], text := [] }, language := [] }] : ℚ) / 1000 :=
  C4_duration_last _ (by decide) (by decide)

/-- C4 counterexample: when a later record ends earlier (interleaved
streams), the reported duration is the last record's 800 ms = 4/5 s,
while the maximum `timeEnd` is 1000 ms = 1 s. -/
theorem C4_duration_cex :
    duration
      [{ sequence := 1, timeStart := 0, timeEnd := 1000,
         text := { file := [], text := [] }, language := [] },
       { sequence := 2, timeStart := 100, timeEnd := 800,
         text := { file := [], text := [] }, language := [] }] = 4 / 5 ∧
    maxTimeEnd
      [{ sequence := 1, timeStart := 0, timeEnd := 1000,
         text := { file := [], text := [] }, language := [] },
       { sequence := 2, timeStart := 100, timeEnd := 800,
         text := { file := [], text := [] }, language := [] }] = 1000 ∧
    (4 / 5 : ℚ) ≠ (1000 : ℚ) / 1000 := by
  refine ⟨by norm_num [duration], by decide, by norm_num⟩

/-- C2 (code bug). While `PLAYING` at virtual time 600 ms with speed 2,
the upcoming step with `timeStart` 700 should by the spec be armed after
`(700 - 600) / 2 = 50` ms of wall clock; the effect instead arms it with
`700 / 2 - 600 = -250` ms (the division applies to `timeStart` alone,
not to the remaining time), so the step fires immediately, 50 ms early in
simulated terms. -/
theorem C2_speed_delay_bug :
    scheduledTimeouts
      [{ sequence := 1, timeStart := 700, timeEnd := 1000,
         text := { file := ['f'], text := ['a'] }, language := [] }]
      PlayerState.PLAYING 2 600 [] =
      ([(0, -250, { file := ['f'], text := ['a'] })],
       [{ file := ['f'], text := ['a'] }]) ∧
    ((700 : ℚ) - 600) / 2 = 50 ∧ (-250 : ℚ) ≠ 50 := by
  refine ⟨?_, by norm_num, by norm_num⟩
  unfold scheduledTimeouts
  norm_num [List.enum]

/-- The synthesizer returns `none` exactly on identical strings
(helper shared by several proofs below). -/
theorem gTD_none_iff (text originalText : Str) :
    getTextDifference2DRanges text originalText = none ↔ originalText = text := by
  unfold getTextDifference2DRanges
  by_cases h : originalText = text <;> simp [h]

/-- Any descriptor the synthesizer returns carries the target text it
was asked to reach. -/
theorem gTD_targetText (text originalText : Str) (d : Changes2DRange)
    (h : getTextDifference2DRanges text originalText = some d) :
    d.targetText = text := by
  unfold getTextDifference2DRanges at h
  split at h
  · exact absurd h (by simp)
  · simp only [Option.some_inj] at h
    rw [← h]

/-- A non-init update that passes the inner rate guard stamps
`lastUpdateTime` and leaves the visible buffer at exactly the requested
target text (either the diff is `none` because the buffer already held
it, or the edit is applied and the `setValue` fallback pins the value). -/
theorem updateFiles_apply (t : Int) (a : UpdateArgs) (s : EditorSt)
    (hinit : a.init = false) (hg : ¬ t - s.lastUpdateTime < 50) :
    (updateFiles t a s).currentValue = a.payload.text ∧
    (updateFiles t a s).lastUpdateTime = t := by
  have hval : ∀ (x y : Str), (if x = y then x else y) = y := by
    intro x y
    split <;> simp_all
  have hop : ∀ d : Changes2DRange,
      (convert2DChangesToMonacoOperations d).targetText = d.targetText :=
    fun d => rfl
  unfold updateFiles
  rw [if_neg (fun hc => hg hc.1), hinit]
  simp only [Bool.false_eq_true, if_false]
  cases h : getTextDifference2DRanges a.payload.text s.currentValue with
  | none =>
    have hcv := (gTD_none_iff _ _).mp h
    simp [h, hcv]
  | some d =>
    have htt := gTD_targetText _ _ _ h
    simp [h, handleEditorChange, List.lookup, hval, hop, htt]

/-- C3 (amended). Rate limiting and the leading edge hold: (i) a
non-init update arriving less than 50 ms after the last applied update
is a complete no-op of the buffer state — so applied mutations are at
least 50 ms apart; (ii) a call hitting an idle throttle wrapper (no
live timer, `shouldInvoke` true) at least 50 ms after the last applied
update is applied immediately, leaving the buffer at the request's
target text.  The trailing-edge/convergence half of the claim is false:
`C3_trailing_drop_cex` exhibits a burst whose last request is silently
and fully dropped, because the wrapper's leading-edge invocation lands
within 50 ms of the last applied update and the inner guard of
`updateFiles` discards it with no retry. -/
theorem C3_throttle_rate_and_leading :
    (∀ (t : Int) (a : UpdateArgs) (s : EditorSt),
      a.init = false → t - s.lastUpdateTime < 50 → updateFiles t a s = s) ∧
    (∀ (t : Int) (a : UpdateArgs) (m : MachineSt),
      m.deb.timerFire = none → shouldInvoke t m.deb = true → a.init = false →
      50 ≤ t - m.ed.lastUpdateTime →
      (throttledCall t a m).ed.currentValue = a.payload.text ∧
      (throttledCall t a m).ed.lastUpdateTime = t) := by
  constructor
  · intro t a s hinit hg
    unfold updateFiles
    rw [if_pos ⟨hg, hinit⟩]
  · intro t a m htimer hinv hinit hgap
    have hstep : throttledCall t a m = leadingEdge t
        { m with deb := { m.deb with lastArgs := some a, lastCallTime := some t } } := by
      unfold throttledCall
      rw [hinv]
      simp [htimer]
    rw [hstep]
    unfold leadingEdge invokeFunc
    simp only
    exact updateFiles_apply t a m.ed hinit (by omega)

/-- C3 witness: from the fresh machine (idle, epoch refs) a single
update call at t = 1000 is applied immediately. -/
theorem C3_throttle_rate_and_leading_w :
    (throttledCall 1000
      { payload := { file := "f".toList, text := "A".toList }, init := false }
      machineInit).ed.currentValue = "A".toList ∧
    (throttledCall 1000
      { payload := { file := "f".toList, text := "A".toList }, init := false }
      machineInit).ed.lastUpdateTime = 1000 :=
  C3_throttle_rate_and_leading.2 1000
    { payload := { file := "f".toList, text := "A".toList }, init := false }
    machineInit (by decide) (by decide) (by decide) (by decide)

/-- C3 counterexample: in the run `c3Run` the requests "A" (leading
edge, t = 1000) and "B" (trailing edge, t = 1050) are applied, but the
last request "C" is never applied: its leading-edge invocation at
t = 1085 lands 35 ms after the last applied mutation, the inner guard of
`updateFiles` discards it, and when the wrapper's timer fires at
t = 1135 no pending arguments remain — the machine is quiescent (no
live timer, no pending request) with the buffer still at "B", so the
window does NOT converge to the last request's target text and the
request is silently and fully dropped. -/
theorem C3_trailing_drop_cex :
    c3Run.ed.applied.map (fun x => (x.1, x.2.2)) =
      [((1000 : Int), "A".toList), ((1050 : Int), "B".toList)] ∧
    c3Run.ed.currentValue = "B".toList ∧
    "B".toList ≠ "C".toList ∧
    c3Run.deb.timerFire = none ∧
    c3Run.deb.lastArgs = none := by
  refine ⟨by decide, by decide, by decide, by decide, by decide⟩

/-- C6 (amended). A single priming call on an idle wrapper applies
immediately and bypasses the inner 50 ms rate guard: with no constraint
at all between `t` and `lastUpdateTime`, an `init = true` call for a
not-yet-seen stream creates that stream's model with the step's full
text at once (and stamps the rate-guard clock).  The full claim is
false: the priming effect issues its per-record calls through the
throttle wrapper, so for three distinct streams only the first record
applies synchronously and only the last is applied 50 ms later on the
trailing edge, while the middle stream is never primed at all
(`C6_priming_cex`). -/
theorem C6_priming_init (t : Int) (a : UpdateArgs) (m : MachineSt)
    (h1 : m.deb.timerFire = none) (h2 : shouldInvoke t m.deb = true)
    (h3 : a.init = true)
    (h4 : m.ed.files.lookup (codePlayerPath a.payload.file) = none) :
    ((throttledCall t a m).ed.files.lookup (codePlayerPath a.payload.file)) =
      some { name := a.payload.file, language := getLanguage a.payload.file,
             value := a.payload.text, isChanged := false } ∧
    (throttledCall t a m).ed.lastUpdateTime = t := by
  have hstep : throttledCall t a m = leadingEdge t
      { m with deb := { m.deb with lastArgs := some a, lastCallTime := some t } } := by
    unfold throttledCall
    rw [h2]
    simp [h1]
  rw [hstep]
  unfold leadingEdge invokeFunc
  simp only
  unfold updateFiles
  rw [if_neg (by simp [h3])]
  rw [h3]
  simp only [if_true]
  rw [show (m.ed.files.lookup (codePlayerPath a.payload.file)).isSome = false by
    simp [h4]]
  simp only [Bool.false_eq_true, if_false]
  constructor
  · split <;> simp [List.lookup]
  · split <;> rfl

/-- C6 witness: an init call at t = 10, only 10 ms after the epoch
`lastUpdateTime`, still creates the stream's model immediately —
the inner rate guard is bypassed. -/
theorem C6_priming_init_w :
    ((throttledCall 10
      { payload := { file := "a.js".toList, text := "A".toList }, init := true }
      machineInit).ed.files.lookup (codePlayerPath "a.js".toList)) =
      some { name := "a.js".toList, language := getLanguage "a.js".toList,
             value := "A".toList, isChanged := false } ∧
    (throttledCall 10
      { payload := { file := "a.js".toList, text := "A".toList }, init := true }
      machineInit).ed.lastUpdateTime = 10 :=
  C6_priming_init 10
    { payload := { file := "a.js".toList, text := "A".toList }, init := true }
    machineInit (by decide) (by decide) (by decide) (by decide)

/-- C6 counterexample: after the priming loop only stream "a.js" has a
model; "b.js" and "c.js" do not — so playback does not start with every
stream primed.  When the wrapper's trailing edge fires 50 ms later,
"c.js" (the last record) is created, but "b.js" never is, and the
machine is then quiescent: the middle stream's initial snapshot is
never applied at all. -/
theorem C6_priming_cex :
    (c6Prime.ed.files.lookup (codePlayerPath "a.js".toList)).isSome = true ∧
    c6Prime.ed.files.lookup (codePlayerPath "b.js".toList) = none ∧
    c6Prime.ed.files.lookup (codePlayerPath "c.js".toList) = none ∧
    (timerExpired 1050 c6Prime).ed.files.lookup (codePlayerPath "b.js".toList) =
      none ∧
    ((timerExpired 1050 c6Prime).ed.files.lookup
      (codePlayerPath "c.js".toList)).isSome = true ∧
    (timerExpired 1050 c6Prime).deb.timerFire = none ∧
    (timerExpired 1050 c6Prime).deb.lastArgs = none := by
  refine ⟨by decide, by decide, by decide, by decide, by decide, by decide,
    by decide⟩

/-- C9 (amended). Cancellation clears the whole pending-timeout map at
once (whenever the player left `PLAYING` or the speed changed) and is
idempotent and total; but there is no per-stream generation counter
anywhere: safety rests solely on `clearTimeout`.  A deferred action that
fires despite cancellation runs the unguarded update body and mutates
buffer state (`C9_stale_fire_cex`) — it is not a silent no-op. -/
theorem C9_cancel_total (ps : PlayerState) (prevSpeed currentSpeed : ℚ)
    (m : List (Nat × ℚ × StepText))
    (h : ps ≠ PlayerState.PLAYING ∨ prevSpeed ≠ currentSpeed) :
    cancelPendingTimeouts ps prevSpeed currentSpeed m = [] ∧
    cancelPendingTimeouts ps prevSpeed currentSpeed
      (cancelPendingTimeouts ps prevSpeed currentSpeed m) =
      cancelPendingTimeouts ps prevSpeed currentSpeed m := by
  unfold cancelPendingTimeouts
  rw [if_pos h, if_pos h]
  exact ⟨rfl, rfl⟩

/-- C9 witness: pausing with a pending timeout clears the map, and
clearing again is a no-op. -/
theorem C9_cancel_total_w :
    cancelPendingTimeouts PlayerState.PAUSED 1 1
      [(1, 350, { file := "f".toList, text := "B".toList })] = [] ∧
    cancelPendingTimeouts PlayerState.PAUSED 1 1
      (cancelPendingTimeouts PlayerState.PAUSED 1 1
        [(1, 350, { file := "f".toList, text := "B".toList })]) =
      cancelPendingTimeouts PlayerState.PAUSED 1 1
        [(1, 350, { file := "f".toList, text := "B".toList })] :=
  C9_cancel_total PlayerState.PAUSED 1 1
    [(1, 350, { file := "f".toList, text := "B".toList })]
    (Or.inl (by decide))

/-- C9 counterexample: pausing clears the timeout map — but the armed
callback closure itself carries no generation counter, so if it fires
anyway (at t = 1100) it runs the full update: the buffer state visibly
changes (the editor value becomes "B" and a mutation is logged).  A
cancelled action's late firing is a buffer mutation, not a silent
no-op. -/
theorem C9_stale_fire_cex :
    cancelPendingTimeouts PlayerState.PAUSED 1 1
      [(1, 350, { file := "f".toList, text := "B".toList })] = [] ∧
    (timeoutCallbackBody 1100 { file := "f".toList, text := "B".toList }
      c9Base).ed ≠ c9Base.ed ∧
    (timeoutCallbackBody 1100 { file := "f".toList, text := "B".toList }
      c9Base).ed.currentValue = "B".toList ∧
    (timeoutCallbackBody 1100 { file := "f".toList, text := "B".toList }
      c9Base).ed.applied.length = c9Base.ed.applied.length + 1 := by
  refine ⟨by decide, by decide, by decide, by decide⟩

/-- When exactly one record is active at `tm` (unique in the interval
sense), the effect's `find` locates it. -/
theorem find?_active (steps : List ChangeStep) (tm : Nat) (s : ChangeStep)
    (hmem : s ∈ steps) (hact : s.timeStart ≤ tm ∧ tm < s.timeEnd)
    (huniq : ∀ s' ∈ steps, s'.timeStart ≤ tm ∧ tm < s'.timeEnd → s' = s) :
    steps.find?
      (fun e => decide ((e.timeStart : ℚ) ≤ (tm : ℚ) ∧ (e.timeEnd : ℚ) > (tm : ℚ)))
      = some s := by
  induction steps with
  | nil => cases hmem
  | cons h tl ih =>
    by_cases hh : h.timeStart ≤ tm ∧ tm < h.timeEnd
    · have heq : h = s := huniq h (List.mem_cons_self h tl) hh
      have hcast : ((h.timeStart : ℚ) ≤ (tm : ℚ) ∧ (h.timeEnd : ℚ) > (tm : ℚ)) := by
        exact_mod_cast hh
      rw [List.find?_cons_of_pos _ (by simpa using hcast), heq]
    · have hneg : ¬ ((h.timeStart : ℚ) ≤ (tm : ℚ) ∧ (h.timeEnd : ℚ) > (tm : ℚ)) := by
        intro hc
        exact hh (by exact_mod_cast hc)
      rw [List.find?_cons_of_neg _ (by simpa using hneg)]
      have hs : s ∈ tl := by
        rcases List.mem_cons.mp hmem with h1 | h1
        · exact absurd (h1 ▸ hact) hh
        · exact h1
      exact ih hs (fun s' hmem' hact' => huniq s' (List.mem_cons_of_mem h hmem') hact')

/-- C8. Seek recomputation: (i) whenever a unique step is active at the
seek time, the rebuilt queue is exactly that step followed by the
records with `timeStart ≥ t` in array order; (ii) filtering preserves
ascending `timeStart` order, so on a sorted timeline the upcoming part
of the queue stays ascending; (iii) Scenario A concretely: on the
two-step timeline, seeking to t = 700 ms rebuilds the queue as just the
active second step, and the scheduling effect's immediate application of
the queue head turns the buffer into "ab" at once. -/
theorem C8_seek_recompute :
    (∀ (steps : List ChangeStep) (tm : Nat) (s : ChangeStep),
      s ∈ steps → (s.timeStart ≤ tm ∧ tm < s.timeEnd) →
      (∀ s' ∈ steps, s'.timeStart ≤ tm ∧ tm < s'.timeEnd → s' = s) →
      filteredArrayAt steps (tm : ℚ) =
        s :: steps.filter (fun e => decide ((e.timeStart : ℚ) ≥ (tm : ℚ)))) ∧
    (∀ (steps : List ChangeStep) (timeMs : ℚ),
      steps.Pairwise (fun a b => a.timeStart ≤ b.timeStart) →
      (filteredArrayAt steps timeMs).tail.Pairwise
        (fun a b => a.timeStart ≤ b.timeStart)) ∧
    (filteredArrayAt [scenA1, scenA2] 700 = [scenA2] ∧
      (throttledCall 1000
        { payload := scenA2.text, init := false } scenAMachine).ed.currentValue =
        "ab".toList) := by
  refine ⟨?_, ?_, by decide, by decide⟩
  · intro steps tm s hmem hact huniq
    unfold filteredArrayAt
    rw [find?_active steps tm s hmem hact huniq]
  · intro steps timeMs hsorted
    have hfil := hsorted.filter
      (fun e => decide ((e.timeStart : ℚ) ≥ timeMs))
    unfold filteredArrayAt
    cases hfind : steps.find?
        (fun e => decide ((e.timeStart : ℚ) ≤ timeMs ∧ (e.timeEnd : ℚ) > timeMs)) with
    | none =>
      simp only
      exact hfil.sublist (List.tail_sublist _)
    | some c =>
      simp only [List.tail_cons]
      exact hfil

/-- C8 witness: seeking to t = 200 ms on the Scenario A timeline finds
step 1 active and rebuilds the queue as step 1 followed by the upcoming
step 2; the sortedness of the upcoming part is preserved. -/
theorem C8_seek_recompute_w :
    filteredArrayAt [scenA1, scenA2] ((200 : Nat) : ℚ) =
      scenA1 :: List.filter
        (fun e => decide ((e.timeStart : ℚ) ≥ ((200 : Nat) : ℚ)))
        [scenA1, scenA2] ∧
    (filteredArrayAt [scenA1, scenA2] 700).tail.Pairwise
      (fun a b => a.timeStart ≤ b.timeStart) :=
  ⟨C8_seek_recompute.1 [scenA1, scenA2] 200 scenA1 (by decide) (by decide)
      (by decide),
   C8_seek_recompute.2.1 [scenA1, scenA2] 700 (by decide)⟩
